import Mathlib

/-!
Shallow embedding of draco point_cloud/point_attribute.h: the PointAttribute
storage class (index mapping, value buffer bookkeeping) and the
PointAttributeHasher functor, together with models of the collaborators the
header uses whose sources are outside src/ (GeometryAttribute descriptor,
IndexTypeVector, hash_utils, and the DeduplicateValues bodies from
point_attribute.cc, modelled from the specification).

Machine integers are modelled as Nat; the buffer is a byte list; the index
map is a list of Nat entries (AttributeValueIndex is a 32-bit index type, so
one entry serialises to 4 bytes and the unassigned sentinel is 2^32 - 1).
-/

namespace Draco

/-- Modelled from the spec: component data types of the base attribute
descriptor (geometry_attribute.h is not under src/). The spec names
float32 and uint8 explicitly and speaks of an unsupported/unrecognized
type for the typed deduplication path, represented here by DT_INVALID. -/
inductive DataType
  | DT_INVALID
  | DT_INT8
  | DT_UINT8
  | DT_INT16
  | DT_UINT16
  | DT_INT32
  | DT_UINT32
  | DT_INT64
  | DT_UINT64
  | DT_FLOAT32
  | DT_FLOAT64
  | DT_BOOL
  deriving DecidableEq, Repr

/-- Modelled from the spec: size in bytes of one component of the given type
(spec: byte_stride = component_count times sizeof(component_type)). -/
def DataType.byteSize : DataType → Nat
  | .DT_INVALID => 0
  | .DT_INT8 => 1
  | .DT_UINT8 => 1
  | .DT_INT16 => 2
  | .DT_UINT16 => 2
  | .DT_INT32 => 4
  | .DT_UINT32 => 4
  | .DT_INT64 => 8
  | .DT_UINT64 => 8
  | .DT_FLOAT32 => 4
  | .DT_FLOAT64 => 8
  | .DT_BOOL => 1

/-- Modelled from the spec: the typed deduplication path supports the known
concrete component types; an unrecognized type (DT_INVALID) is unsupported
and makes deduplication fail. -/
def DataType.supported : DataType → Bool
  | .DT_INVALID => false
  | _ => true

/-- Modelled from the spec: the base attribute descriptor
(geometry_attribute.h is not under src/): fixed component_type and
component_count; byte_stride is derived from them. -/
structure GeometryAttribute where
  componentType : DataType
  componentCount : Nat
  deriving DecidableEq, Repr

/-- Derived byte stride of one attribute value record:
component_count times sizeof(component_type). -/
def GeometryAttribute.byte_stride (g : GeometryAttribute) : Nat :=
  g.componentCount * g.componentType.byteSize

/-- Modelled from the spec: kInvalidAttributeValueIndex, the distinguished
out-of-range sentinel denoting an unassigned AttributeValueIndex
(AttributeValueIndex is a 32-bit index type; draco_index_type.h is not
under src/). -/
def kInvalidAttributeValueIndex : Nat := 2 ^ 32 - 1

/-- State of draco PointAttribute (point_attribute.h lines 31-127): the
inherited descriptor, the owned value buffer (None models a null
attribute_buffer_ unique_ptr), the explicit point-to-value index table,
the unique entry count and the identity-mapping flag. -/
structure PointAttribute where
  att : GeometryAttribute
  attribute_buffer : Option (List Nat)
  indices_map : List Nat
  num_unique_entries : Nat
  identity_mapping : Bool
  deriving DecidableEq, Repr

namespace PointAttribute

/-- Byte stride of the attribute, inherited from the descriptor. -/
def byte_stride (a : PointAttribute) : Nat :=
  a.att.byte_stride

/-- Modelled from the spec: default construction (point_attribute.cc is not
under src/); lifecycle says storage is created empty, identity mapping,
no buffer allocated yet. -/
def mkNew (g : GeometryAttribute) : PointAttribute :=
  { att := g
    attribute_buffer := none
    indices_map := []
    num_unique_entries := 0
    identity_mapping := true }

/-- size() returns num_unique_entries_ (point_attribute.h line 44). -/
def size (a : PointAttribute) : Nat :=
  a.num_unique_entries

/-- mapped_index (point_attribute.h lines 45-49): the point index itself in
identity mode, otherwise the indices_map_ table entry (table reads are
in-bounds by the caller contract; out-of-bounds defaults are never
exercised under that precondition). -/
def mapped_index (a : PointAttribute) (p : Nat) : Nat :=
  if a.identity_mapping then p else a.indices_map.getD p 0

/-- is_mapping_identity() (point_attribute.h line 51). -/
def is_mapping_identity (a : PointAttribute) : Bool :=
  a.identity_mapping

/-- Resize (point_attribute.h lines 58-60): sets the number of unique
entries and nothing else. -/
def Resize (a : PointAttribute) (n : Nat) : PointAttribute :=
  { a with num_unique_entries := n }

/-- SetIdentityMapping (point_attribute.h lines 66-69): raises the identity
flag and clears the explicit table. -/
def SetIdentityMapping (a : PointAttribute) : PointAttribute :=
  { a with identity_mapping := true, indices_map := [] }

/-- Modelled from the spec: std::vector style resize, the semantics of
IndexTypeVector::resize(size, val) (core/draco_index_type_vector.h, a
plain wrapper around std::vector, is not under src/): the existing prefix
of up to n entries is kept and any newly created slots are filled with
val. -/
def vecResize (l : List Nat) (n : Nat) (val : Nat) : List Nat :=
  l.take n ++ List.replicate (n - l.length) val

/-- SetExplicitMapping (point_attribute.h lines 72-75): clears the identity
flag and resizes the table to num_points entries, filling new slots with
kInvalidAttributeValueIndex. -/
def SetExplicitMapping (a : PointAttribute) (num_points : Nat) : PointAttribute :=
  { a with identity_mapping := false
           indices_map := vecResize a.indices_map num_points kInvalidAttributeValueIndex }

/-- SetPointMapEntry (point_attribute.h lines 78-82): writes the table entry
for the given point. The DCHECK of non-identity mode is a debug-build
contract precondition, carried as a hypothesis by the theorems. -/
def SetPointMapEntry (a : PointAttribute) (p : Nat) (e : Nat) : PointAttribute :=
  { a with indices_map := a.indices_map.set p e }

/-- Modelled from the spec: DataBuffer::Write(offset, bytes, length)
(core/data_buffer.h is not under src/): positioned write of a byte range,
growing the buffer when the range ends past its current size. -/
def bufferWrite (buf : List Nat) (pos : Nat) (v : List Nat) : List Nat :=
  let padded := buf ++ List.replicate (pos + v.length - buf.length) 0
  padded.take pos ++ v ++ padded.drop (pos + v.length)

/-- SetAttributeValue (point_attribute.h lines 86-89): writes byte_stride
bytes of value at offset entry_index times byte_stride into the buffer
(caller guarantees the buffer exists and the value has stride length). -/
def SetAttributeValue (a : PointAttribute) (entry_index : Nat) (value : List Nat) :
    PointAttribute :=
  let newBuf := bufferWrite (a.attribute_buffer.getD []) (entry_index * a.byte_stride) value
  { a with attribute_buffer := some newBuf }

/-- Modelled from the spec: GeometryAttribute::GetValue by value index
(geometry_attribute.h is not under src/): byte_stride consecutive bytes
of the record at value_index times byte_stride. -/
def GetValue (a : PointAttribute) (value_index : Nat) : List Nat :=
  ((a.attribute_buffer.getD []).drop (value_index * a.byte_stride)).take a.byte_stride

/-- GetMappedValue (point_attribute.h lines 93-95): GetValue at the mapped
index of the point. -/
def GetMappedValue (a : PointAttribute) (p : Nat) : List Nat :=
  a.GetValue (a.mapped_index p)

/-- Modelled from the spec: Reset (point_attribute.cc is not under src/);
reset(n) (re)allocates the value buffer to hold n records, discards any
prior mapping, defaults to identity mode and sets unique_entry_count to
n. -/
def Reset (a : PointAttribute) (n : Nat) : PointAttribute :=
  { a with attribute_buffer := some (List.replicate (n * a.byte_stride) 0)
           indices_map := []
           identity_mapping := true
           num_unique_entries := n }

/-- Modelled from the spec: the number of points an attribute covers, used
as the deduplication loop bound (spec section 3: table length equals the
point count in explicit mode; the count equals the point count in
identity mode). -/
def numPoints (a : PointAttribute) : Nat :=
  if a.identity_mapping then a.num_unique_entries else a.indices_map.length

/-- Modelled from the spec: the source record of point p under the given
read offset, step 2a of the deduplication algorithm: the byte_stride
bytes at record index mapped_index(p) + offset of the source. -/
def srcRecord (src : PointAttribute) (offset : Nat) (p : Nat) : List Nat :=
  src.GetValue (src.mapped_index p + offset)

/-- Modelled from the spec: whether deduplication of src into dst can
proceed; it fails on an unsupported component type or on a component
type/count mismatch between source and destination (spec sections 4.2
and 7). -/
def dedupOk (dst src : PointAttribute) : Bool :=
  dst.att.componentType == src.att.componentType &&
    dst.att.componentCount == src.att.componentCount &&
    dst.att.componentType.supported

/-- Position of the first occurrence of a record in the seen table; since
unique indices are handed out in first-occurrence order, the index bound
to a seen record is its position in the table. -/
def recIndexOf : List (List Nat) → List Nat → Nat
  | [], _ => 0
  | x :: xs, r => if x = r then 0 else recIndexOf xs r + 1

/-- Modelled from the spec: one iteration of the deduplication loop (spec
section 4.2, steps 2b-2d) over the accumulator of unique records seen so
far (the seen table, in first-occurrence order, record content at
position i bound to index i) and the per-point mapping built so far. -/
def dedupStep (src : PointAttribute) (offset : Nat)
    (acc : List (List Nat) × List Nat) (p : Nat) : List (List Nat) × List Nat :=
  if srcRecord src offset p ∈ acc.1 then
    (acc.1, acc.2 ++ [recIndexOf acc.1 (srcRecord src offset p)])
  else
    (acc.1 ++ [srcRecord src offset p], acc.2 ++ [acc.1.length])

/-- Modelled from the spec: DeduplicateValues (point_attribute.cc is not
under src/), following spec section 4.2: when the type/count check
passes, scan the points of src in increasing order, assign each distinct
record the next unique index in first-occurrence order, write the unique
records compactly into the destination buffer, install the per-point
mapping as an explicit table, set unique_entry_count to the number of
distinct records and return it; on failure return the sentinel -1 and
leave the destination untouched. Reads go through the source state taken
at entry (the staging-buffer discipline the spec prescribes for
self-deduplication). -/
def DeduplicateValues (dst src : PointAttribute) (offset : Nat) :
    PointAttribute × Int :=
  if dedupOk dst src then
    let n := numPoints src
    let out := (List.range n).foldl (dedupStep src offset) ([], [])
    ({ dst with attribute_buffer := some out.1.flatten
                indices_map := out.2
                identity_mapping := false
                num_unique_entries := out.1.length },
      (out.1.length : Int))
  else
    (dst, -1)

/-- Modelled from the spec: copying an attribute into a fresh separate
attribute (used by the self-deduplication property): the copy carries
the same descriptor, buffer contents, mapping and counts. -/
def copyOf (a : PointAttribute) : PointAttribute :=
  { att := a.att
    attribute_buffer := a.attribute_buffer
    indices_map := a.indices_map
    num_unique_entries := a.num_unique_entries
    identity_mapping := a.identity_mapping }

end PointAttribute

/-- Modelled from the spec: HashCombine (core/hash_utils.h is not under
src/): a deterministic combination of a value into a running hash,
truncated to the 64-bit size_t range. -/
def HashCombine (v h : Nat) : Nat :=
  (h * 65599 + v + 1) % 2 ^ 64

/-- Modelled from the spec: FingerprintString (core/hash_utils.h is not
under src/): a deterministic 64-bit content fingerprint of a byte
string; it takes a byte pointer and a length (forced by the call sites
in point_attribute.h, which pass a reinterpret_cast byte pointer and a
size) and reads exactly the first len bytes of the data. -/
def FingerprintString (s : List Nat) (len : Nat) : Nat :=
  (s.take len).foldl (fun h b => h * 257 + b + 1) 1 % 2 ^ 64

/-- Little-endian 4-byte serialisation of one AttributeValueIndex table
entry (AttributeValueIndex is a 32-bit index type), used to view
indices_map_.data() as the byte string the hasher fingerprints. -/
def indexBytes (v : Nat) : List Nat :=
  [v % 256, v / 2 ^ 8 % 256, v / 2 ^ 16 % 256, v / 2 ^ 24 % 256]

/-- Byte image of the whole explicit table, the data the hasher call site
points FingerprintString at. -/
def mapBytes (m : List Nat) : List Nat :=
  (m.map indexBytes).flatten

/-- Modelled from the spec: GeometryAttributeHasher (geometry_attribute.h is
not under src/): the base attribute descriptor fingerprint, a
deterministic function of the descriptor. -/
def GeometryAttributeHasher (g : GeometryAttribute) : Nat :=
  HashCombine g.componentCount (HashCombine g.componentType.byteSize (HashCombine g.componentType.supported.toNat 0))

/-- PointAttributeHasher::operator() (point_attribute.h lines 130-151):
combines the base descriptor hash, the identity flag, the unique entry
count and the table length; then, when the table is non-empty, combines
FingerprintString of the table data taken with length indices_map_.size()
(the entry count, exactly as the call site passes it); then, when the
buffer exists, combines FingerprintString of the buffer data taken with
length data_size() (the byte count). -/
def PointAttributeHasher (a : PointAttribute) : Nat :=
  let hash := GeometryAttributeHasher a.att
  let hash := HashCombine a.identity_mapping.toNat hash
  let hash := HashCombine a.num_unique_entries hash
  let hash := HashCombine a.indices_map.length hash
  let hash :=
    if a.indices_map.length > 0 then
      HashCombine (FingerprintString (mapBytes a.indices_map) a.indices_map.length) hash
    else hash
  match a.attribute_buffer with
  | some buf => HashCombine (FingerprintString buf buf.length) hash
  | none => hash

/-- Invariant I1 of the spec: identity mode implies the explicit table is
empty. -/
def Inv (a : PointAttribute) : Prop :=
  a.identity_mapping = true → a.indices_map = []

/-- Insert a record into the seen table unless it is already present. -/
def insOcc (acc : List (List Nat)) (r : List Nat) : List (List Nat) :=
  if r ∈ acc then acc else acc ++ [r]

/-- The distinct records of a list in first-occurrence order. -/
def firstOccs (l : List (List Nat)) : List (List Nat) :=
  l.foldl insOcc []

/-- Example descriptor: three uint8 components (stride 3), the shape used by
the concrete deduplication scenario of the spec. -/
def g3ex : GeometryAttribute := ⟨.DT_UINT8, 3⟩

/-- Example attribute for the concrete deduplication scenario of the spec:
component_count 3, five points in identity mode, record values
(1,1,1), (2,2,2), (1,1,1), (3,3,3), (2,2,2). -/
def exScenario : PointAttribute :=
  { att := g3ex
    attribute_buffer := some [1, 1, 1, 2, 2, 2, 1, 1, 1, 3, 3, 3, 2, 2, 2]
    indices_map := []
    num_unique_entries := 5
    identity_mapping := true }

/-- Example float32 times 3 attribute for the failure scenario. -/
def exFloat : PointAttribute := PointAttribute.mkNew ⟨.DT_FLOAT32, 3⟩

/-- Example uint8 times 2 attribute for the failure scenario. -/
def exByte2 : PointAttribute := PointAttribute.mkNew ⟨.DT_UINT8, 2⟩

/-- Example attribute in explicit mode with an assigned three-entry table. -/
def exExplicit : PointAttribute :=
  { att := g3ex
    attribute_buffer := some [7, 7, 7, 8, 8, 8, 9, 9, 9]
    indices_map := [2, 0, 1]
    num_unique_entries := 3
    identity_mapping := false }

/-- Hasher probe: explicit mode, five-entry table of zero entries. -/
def exH1 : PointAttribute :=
  { att := g3ex
    attribute_buffer := some [7]
    indices_map := [0, 0, 0, 0, 0]
    num_unique_entries := 3
    identity_mapping := false }

/-- Hasher probe: identical to exH1 except the last table entry is 9. -/
def exH2 : PointAttribute :=
  { att := g3ex
    attribute_buffer := some [7]
    indices_map := [0, 0, 0, 0, 9]
    num_unique_entries := 3
    identity_mapping := false }

/-- Hasher probe built through a different operation sequence but with
observable state equal to exH1 field by field. -/
def exH1copy : PointAttribute :=
  PointAttribute.SetPointMapEntry
    { att := g3ex
      attribute_buffer := some [7]
      indices_map := [0, 0, 0, 0, 1]
      num_unique_entries := 3
      identity_mapping := false } 4 0

/-- Intermediate state for the repeated SetExplicitMapping scenario: a fresh
attribute switched to a two-point explicit mapping whose entry for point
0 has been assigned value index 5. -/
def exC4base : PointAttribute :=
  (((PointAttribute.mkNew g3ex).SetExplicitMapping 2).SetPointMapEntry 0 5)

/-- Result of calling SetExplicitMapping again, now for three points, on top
of exC4base. -/
def exC4 : PointAttribute := exC4base.SetExplicitMapping 3

open PointAttribute

/-- C8: Resize(new_unique_count) sets the unique entry count observed via
size() to new_unique_count and changes nothing else: the buffer, the
mapping mode flag, the explicit table and the descriptor are untouched. -/
theorem resize_frame (a : PointAttribute) (n : Nat) :
    (a.Resize n).size = n ∧
    (a.Resize n).attribute_buffer = a.attribute_buffer ∧
    (a.Resize n).identity_mapping = a.identity_mapping ∧
    (a.Resize n).indices_map = a.indices_map ∧
    (a.Resize n).att = a.att :=
  ⟨rfl, rfl, rfl, rfl, rfl⟩

/-- C6: mapped_index returns the point index itself in identity mode, the
explicit table entry when in explicit mode with the point inside table
bounds, and after a Reset (which restores identity mode) it is again the
identity on points. -/
theorem mapped_index_spec (a : PointAttribute) (p : Nat) :
    (a.identity_mapping = true → a.mapped_index p = p) ∧
    (a.identity_mapping = false → ∀ h : p < a.indices_map.length,
      a.mapped_index p = a.indices_map.get ⟨p, h⟩) ∧
    (∀ n, (a.Reset n).mapped_index p = p) := by
  refine ⟨fun h => by simp [mapped_index, h], fun h hp => ?_,
    fun n => by simp [Reset, mapped_index]⟩
  simp [mapped_index, h, List.getD_eq_getElem?_getD, List.getElem?_eq_getElem hp]

/-- Witness for mapped_index_spec at concrete attributes: an identity-mode
attribute, an explicit-mode attribute with table [2, 0, 1], and a Reset
attribute. -/
theorem mapped_index_spec_witness :
    (exScenario.identity_mapping = true ∧ exScenario.mapped_index 4 = 4) ∧
    (exExplicit.identity_mapping = false ∧ 1 < exExplicit.indices_map.length ∧
      exExplicit.mapped_index 1 = 0) ∧
    (exExplicit.Reset 2).mapped_index 3 = 3 := by
  refine ⟨⟨by decide, (mapped_index_spec exScenario 4).1 (by decide)⟩,
    ⟨by decide, by decide, ?_⟩, (mapped_index_spec exExplicit 3).2.2 2⟩
  have h := (mapped_index_spec exExplicit 1).2.1 (by decide) (by decide)
  exact h.trans (by decide)

/-- C10: under the explicit-mode precondition (the DCHECK) and an in-bounds
point, SetPointMapEntry overwrites exactly the table entry for the
point: every other entry, the table length, the unique entry count, the
buffer, the mode flag and the descriptor are unchanged. -/
theorem set_point_map_entry_spec (a : PointAttribute) (p e : Nat)
    (_hmode : a.identity_mapping = false) (hp : p < a.indices_map.length) :
    (a.SetPointMapEntry p e).indices_map.getD p 0 = e ∧
    (∀ q, q ≠ p →
      (a.SetPointMapEntry p e).indices_map.getD q 0 = a.indices_map.getD q 0) ∧
    (a.SetPointMapEntry p e).indices_map.length = a.indices_map.length ∧
    (a.SetPointMapEntry p e).num_unique_entries = a.num_unique_entries ∧
    (a.SetPointMapEntry p e).attribute_buffer = a.attribute_buffer ∧
    (a.SetPointMapEntry p e).identity_mapping = a.identity_mapping := by
  refine ⟨?_, fun q hq => ?_, by simp [SetPointMapEntry], rfl, rfl, rfl⟩
  · simp [SetPointMapEntry, List.getD_eq_getElem?_getD, List.getElem?_set_self, hp]
  · simp [SetPointMapEntry, List.getD_eq_getElem?_getD,
      List.getElem?_set_ne (fun hh => hq hh.symm)]

/-- Witness for set_point_map_entry_spec: writing entry 1 of the concrete
explicit attribute stores the value there and leaves entry 2 alone. -/
theorem set_point_map_entry_spec_witness :
    exExplicit.identity_mapping = false ∧ 1 < exExplicit.indices_map.length ∧
    (exExplicit.SetPointMapEntry 1 7).indices_map.getD 1 0 = 7 ∧
    (exExplicit.SetPointMapEntry 1 7).indices_map.getD 2 0 =
      exExplicit.indices_map.getD 2 0 := by
  have h := set_point_map_entry_spec exExplicit 1 7 (by decide) (by decide)
  exact ⟨by decide, by decide, h.1, h.2.1 2 (by decide)⟩

/-- C9: the structural fingerprint is a deterministic function of the
observable state: equal descriptor, mapping mode flag, unique entry
count, table contents and buffer contents give equal hash values. -/
theorem hasher_deterministic (a b : PointAttribute)
    (h1 : a.att = b.att) (h2 : a.identity_mapping = b.identity_mapping)
    (h3 : a.num_unique_entries = b.num_unique_entries)
    (h4 : a.indices_map = b.indices_map)
    (h5 : a.attribute_buffer = b.attribute_buffer) :
    PointAttributeHasher a = PointAttributeHasher b := by
  unfold PointAttributeHasher
  rw [h1, h2, h3, h4, h5]

/-- Witness for hasher_deterministic: two attributes built by different
operation sequences whose observable fields coincide hash equal. -/
theorem hasher_deterministic_witness :
    exH1.att = exH1copy.att ∧ exH1.indices_map = exH1copy.indices_map ∧
    PointAttributeHasher exH1 = PointAttributeHasher exH1copy :=
  ⟨by decide, by decide,
    hasher_deterministic exH1 exH1copy (by decide) (by decide) (by decide)
      (by decide) (by decide)⟩

/-- C2: when the component type is unsupported or the component type/count
mismatch the destination, DeduplicateValues returns the sentinel -1 and
leaves the destination state exactly as it was, unique entry count and
index mapping included. -/
theorem dedup_failure (dst src : PointAttribute) (off : Nat)
    (h : dedupOk dst src = false) :
    (DeduplicateValues dst src off).2 = -1 ∧
    (DeduplicateValues dst src off).1 = dst := by
  simp [DeduplicateValues, h]

/-- Witness for dedup_failure: deduplicating a float32 times 3 destination
against a uint8 times 2 source fails with -1 and leaves the destination
unchanged. -/
theorem dedup_failure_witness :
    dedupOk exFloat exByte2 = false ∧
    (DeduplicateValues exFloat exByte2 0).2 = -1 ∧
    (DeduplicateValues exFloat exByte2 0).1 = exFloat := by
  have h := dedup_failure exFloat exByte2 0 (by decide)
  exact ⟨by decide, h.1, h.2⟩

/-- C5: deduplicating an attribute against itself produces the same unique
entry count, point-to-value mapping and return value as first copying
it into a fresh separate attribute and deduplicating against the copy. -/
theorem self_dedup_eq_copy (a : PointAttribute) (off : Nat) :
    (DeduplicateValues a a off).1.num_unique_entries =
      (DeduplicateValues a (copyOf a) off).1.num_unique_entries ∧
    (DeduplicateValues a a off).1.indices_map =
      (DeduplicateValues a (copyOf a) off).1.indices_map ∧
    (DeduplicateValues a a off).2 = (DeduplicateValues a (copyOf a) off).2 := by
  have h : copyOf a = a := rfl
  rw [h]
  exact ⟨rfl, rfl, rfl⟩

/-- C7: invariant I1 (identity mode implies the explicit table is empty)
holds after construction and is preserved by every public operation
(SetIdentityMapping, SetExplicitMapping, SetPointMapEntry under its
explicit-mode precondition, Reset, Resize, SetAttributeValue and
DeduplicateValues), and under it identity mode maps every point to
itself. -/
theorem identity_inv_preserved :
    (∀ g, Inv (PointAttribute.mkNew g)) ∧
    (∀ a : PointAttribute, Inv a.SetIdentityMapping) ∧
    (∀ (a : PointAttribute) (n : Nat), Inv (a.SetExplicitMapping n)) ∧
    (∀ (a : PointAttribute) (p e : Nat), a.identity_mapping = false →
      Inv (a.SetPointMapEntry p e)) ∧
    (∀ (a : PointAttribute) (n : Nat), Inv (a.Reset n)) ∧
    (∀ (a : PointAttribute) (n : Nat), Inv a → Inv (a.Resize n)) ∧
    (∀ (a : PointAttribute) (i : Nat) (v : List Nat), Inv a →
      Inv (a.SetAttributeValue i v)) ∧
    (∀ (dst src : PointAttribute) (off : Nat), Inv dst →
      Inv (DeduplicateValues dst src off).1) ∧
    (∀ (a : PointAttribute) (p : Nat), Inv a → a.identity_mapping = true →
      a.mapped_index p = p) := by
  refine ⟨fun g _ => rfl, fun a _ => rfl, fun a n h => ?_, fun a p e hm h => ?_,
    fun a n _ => rfl, fun a n ha h => ha h, fun a i v ha h => ha h,
    fun dst src off ha => ?_, fun a p _ h => by simp [mapped_index, h]⟩
  · exact absurd h (by simp [SetExplicitMapping])
  · exact absurd h (by simp [SetPointMapEntry, hm])
  · cases hd : dedupOk dst src with
    | true => intro h; exact absurd h (by simp [DeduplicateValues, hd])
    | false =>
        have hres : (DeduplicateValues dst src off).1 = dst := by
          simp [DeduplicateValues, hd]
        rw [hres]
        exact ha

/-- Witness for identity_inv_preserved, exercised at concrete attributes:
the invariant holds for the identity-mode scenario attribute, survives
Resize, survives SetPointMapEntry in explicit mode, and yields the
identity behaviour of mapped_index. -/
theorem identity_inv_preserved_witness :
    Inv exScenario ∧ Inv (exScenario.Resize 7) ∧
    Inv (exExplicit.SetPointMapEntry 0 1) ∧
    exScenario.mapped_index 2 = 2 := by
  have h := identity_inv_preserved
  exact ⟨fun _ => rfl, h.2.2.2.2.2.1 exScenario 7 (fun _ => rfl),
    h.2.2.2.1 exExplicit 0 1 (by decide),
    h.2.2.2.2.2.2.2.2 exScenario 2 (fun _ => rfl) (by decide)⟩

/-- C3 (code evaluated at the failing input): exH1 and exH2 agree on the
descriptor, mapping mode, unique entry count, table length and buffer,
and differ in exactly the last explicit table entry, yet their
structural fingerprints are equal. The hasher call site passes the table
entry count where FingerprintString expects a byte length, so table
bytes past the first indices_map_.size() bytes never reach the hash
input. -/
theorem hasher_misses_table_tail :
    exH1.att = exH2.att ∧
    exH1.identity_mapping = exH2.identity_mapping ∧
    exH1.num_unique_entries = exH2.num_unique_entries ∧
    exH1.indices_map.length = exH2.indices_map.length ∧
    exH1.attribute_buffer = exH2.attribute_buffer ∧
    exH1.indices_map ≠ exH2.indices_map ∧
    (∀ i < 4, exH1.indices_map.getD i 0 = exH2.indices_map.getD i 0) ∧
    PointAttributeHasher exH1 = PointAttributeHasher exH2 := by decide

/-- C4 (counterexample): after a two-point explicit mapping whose entry for
point 0 was assigned value index 5, calling SetExplicitMapping(3) again
yields a table whose entry 0 still holds 5 rather than the unassigned
sentinel, refuting the claim that every entry is reinitialized. -/
theorem set_explicit_mapping_not_reinit :
    exC4.identity_mapping = false ∧
    exC4.indices_map.length = 3 ∧
    exC4.indices_map.getD 0 0 = 5 ∧
    exC4.indices_map ≠ List.replicate 3 kInvalidAttributeValueIndex := by decide

/-- C4 (amended): SetExplicitMapping(num_points) switches to explicit mode
with a table of exactly num_points entries; entries at positions past
the previous table length are initialized to the sentinel
kInvalidAttributeValueIndex, entries at positions inside the previous
table keep their previous values, and when the previous table was empty
(fresh attribute, or identity mode by invariant I1) every entry is the
sentinel. -/
theorem set_explicit_mapping_spec (a : PointAttribute) (n : Nat) :
    (a.SetExplicitMapping n).identity_mapping = false ∧
    (a.SetExplicitMapping n).indices_map.length = n ∧
    (∀ i, a.indices_map.length ≤ i → i < n →
      (a.SetExplicitMapping n).indices_map.getD i 0 = kInvalidAttributeValueIndex) ∧
    (∀ i, i < n → i < a.indices_map.length →
      (a.SetExplicitMapping n).indices_map.getD i 0 = a.indices_map.getD i 0) ∧
    (a.indices_map = [] → (a.SetExplicitMapping n).indices_map =
      List.replicate n kInvalidAttributeValueIndex) := by
  refine ⟨rfl, ?_, fun i hle hlt => ?_, fun i hn hlen => ?_, fun hnil => ?_⟩
  · simp [SetExplicitMapping, vecResize]
    omega
  · have htk : (a.indices_map.take n).length = a.indices_map.length := by
      simp
      omega
    simp [SetExplicitMapping, vecResize, List.getD_eq_getElem?_getD,
      List.getElem?_append, htk, Nat.not_lt.mpr hle, List.getElem?_replicate,
      show i - a.indices_map.length < n - a.indices_map.length from by omega]
  · simp [SetExplicitMapping, vecResize, List.getD_eq_getElem?_getD,
      List.getElem?_append, List.getElem?_take, hn, hlen,
      show i < n ⊓ a.indices_map.length from by omega]
  · simp [SetExplicitMapping, vecResize, hnil]

/-- Witness for set_explicit_mapping_spec: at the concrete repeated-mapping
scenario the fresh slot 2 is the sentinel while slot 0 keeps its prior
value. -/
theorem set_explicit_mapping_spec_witness :
    exC4base.indices_map.length ≤ 2 ∧
    exC4.indices_map.getD 2 0 = kInvalidAttributeValueIndex ∧
    exC4.indices_map.getD 0 0 = exC4base.indices_map.getD 0 0 := by
  have h := set_explicit_mapping_spec exC4base 3
  exact ⟨by decide, h.2.2.1 2 (by decide) (by decide),
    h.2.2.2.1 0 (by decide) (by decide)⟩

/-- Appending records after the seen table does not move the position of a
record already in the table. -/
theorem recIndexOf_append (r : List Nat) (u t : List (List Nat)) (h : r ∈ u) :
    recIndexOf (u ++ t) r = recIndexOf u r := by
  induction u with
  | nil => exact absurd h (List.not_mem_nil r)
  | cons x xs ih =>
    by_cases hx : x = r
    · simp [recIndexOf, hx]
    · have hm : r ∈ xs := by
        rcases List.mem_cons.mp h with h1 | h2
        · exact absurd h1.symm hx
        · exact h2
      simp [recIndexOf, hx, ih hm]

/-- A record appended to a seen table not containing it lands at position
equal to the old table length. -/
theorem recIndexOf_self_append (r : List Nat) (u : List (List Nat)) (h : r ∉ u) :
    recIndexOf (u ++ [r]) r = u.length := by
  induction u with
  | nil => simp [recIndexOf]
  | cons x xs ih =>
    have hx : ¬ x = r := fun he => h (he ▸ List.mem_cons_self x xs)
    simp [recIndexOf, hx, ih (fun hm => h (List.mem_cons_of_mem x hm))]

/-- Two records present in the seen table share a position exactly when they
are the same record. -/
theorem recIndexOf_inj (u : List (List Nat)) (x y : List Nat) (hx : x ∈ u)
    (hy : y ∈ u) (h : recIndexOf u x = recIndexOf u y) : x = y := by
  induction u with
  | nil => exact absurd hx (List.not_mem_nil x)
  | cons a as ih =>
    by_cases hax : a = x <;> by_cases hay : a = y
    · rw [← hax, hay]
    · rw [show recIndexOf (a :: as) x = 0 from by simp [recIndexOf, hax],
        show recIndexOf (a :: as) y = recIndexOf as y + 1 from by
          simp [recIndexOf, hay]] at h
      exact absurd h (by omega)
    · rw [show recIndexOf (a :: as) x = recIndexOf as x + 1 from by
          simp [recIndexOf, hax],
        show recIndexOf (a :: as) y = 0 from by simp [recIndexOf, hay]] at h
      exact absurd h (by omega)
    · have hx2 : x ∈ as := by
        rcases List.mem_cons.mp hx with h1 | h2
        · exact absurd h1.symm hax
        · exact h2
      have hy2 : y ∈ as := by
        rcases List.mem_cons.mp hy with h1 | h2
        · exact absurd h1.symm hay
        · exact h2
      rw [show recIndexOf (a :: as) x = recIndexOf as x + 1 from by
          simp [recIndexOf, hax],
        show recIndexOf (a :: as) y = recIndexOf as y + 1 from by
          simp [recIndexOf, hay]] at h
      exact ih hx2 hy2 (by omega)

/-- Membership in a foldl of insOcc is membership in the accumulator or in
the scanned list. -/
theorem mem_foldl_insOcc (l : List (List Nat)) :
    ∀ (acc : List (List Nat)) (x : List Nat),
      x ∈ l.foldl insOcc acc ↔ x ∈ acc ∨ x ∈ l := by
  induction l with
  | nil => simp
  | cons r rs ih =>
    intro acc x
    rw [List.foldl_cons, ih]
    unfold insOcc
    by_cases hr : r ∈ acc
    · simp only [if_pos hr, List.mem_cons]
      constructor
      · rintro (h1 | h2)
        · exact Or.inl h1
        · exact Or.inr (Or.inr h2)
      · rintro (h1 | h2 | h3)
        · exact Or.inl h1
        · exact Or.inl (h2 ▸ hr)
        · exact Or.inr h3
    · simp only [if_neg hr, List.mem_append, List.mem_cons, List.mem_singleton]
      tauto

/-- The foldl of insOcc keeps the accumulator duplicate-free and collects
exactly the elements of the accumulator and the scanned list. -/
theorem nodup_toFinset_foldl_insOcc (l : List (List Nat)) :
    ∀ acc : List (List Nat), acc.Nodup →
      (l.foldl insOcc acc).Nodup ∧
      (l.foldl insOcc acc).toFinset = acc.toFinset ∪ l.toFinset := by
  induction l with
  | nil =>
    intro acc h
    exact ⟨h, by simp⟩
  | cons r rs ih =>
    intro acc h
    rw [List.foldl_cons]
    have hacc : (insOcc acc r).Nodup := by
      unfold insOcc
      by_cases hr : r ∈ acc
      · simpa [hr] using h
      · simp [List.nodup_append, h, hr]
    have htf : (insOcc acc r).toFinset = insert r acc.toFinset := by
      unfold insOcc
      by_cases hr : r ∈ acc
      · simp only [if_pos hr]
        exact (Finset.insert_eq_self.mpr (List.mem_toFinset.mpr hr)).symm
      · simp only [if_neg hr, List.toFinset_append, List.toFinset_cons,
          List.toFinset_nil, insert_emptyc_eq]
        rw [Finset.union_comm, Finset.insert_eq]
    rcases ih (insOcc acc r) hacc with ⟨h1, h2⟩
    refine ⟨h1, ?_⟩
    rw [h2, htf, List.toFinset_cons, Finset.insert_union, Finset.union_insert]

/-- The first-occurrence list is duplicate-free. -/
theorem firstOccs_nodup (l : List (List Nat)) : (firstOccs l).Nodup :=
  (nodup_toFinset_foldl_insOcc l [] (by simp)).1

/-- The first-occurrence list carries exactly the distinct elements of the
input. -/
theorem firstOccs_toFinset (l : List (List Nat)) :
    (firstOccs l).toFinset = l.toFinset := by
  have h := (nodup_toFinset_foldl_insOcc l [] (by simp)).2
  simpa [firstOccs] using h

/-- Membership in the first-occurrence list is membership in the input. -/
theorem mem_firstOccs (l : List (List Nat)) (x : List Nat) :
    x ∈ firstOccs l ↔ x ∈ l := by
  have h := mem_foldl_insOcc l [] x
  simpa [firstOccs] using h

/-- The length of the first-occurrence list is the number of distinct
elements of the input. -/
theorem firstOccs_length (l : List (List Nat)) :
    (firstOccs l).length = l.toFinset.card := by
  rw [← firstOccs_toFinset]
  exact (List.toFinset_card_of_nodup (firstOccs_nodup l)).symm

/-- Scanning one more element updates the first-occurrence list by one
insOcc step. -/
theorem firstOccs_append_singleton (l : List (List Nat)) (r : List Nat) :
    firstOccs (l ++ [r]) = insOcc (firstOccs l) r := by
  unfold firstOccs
  rw [List.foldl_append]
  rfl

/-- Reading a mapped list built over List.range at an in-range position
gives the mapped value. -/
theorem getD_map_range (f : Nat → Nat) (n p : Nat) (h : p < n) :
    ((List.range n).map f).getD p 0 = f p := by
  simp [List.getD_eq_getElem?_getD, List.getElem?_map, List.getElem?_range, h]

/-- When the record of the point was seen before, the loop step only
appends its existing table position to the mapping. -/
theorem dedupStep_mem (src : PointAttribute) (off p : Nat)
    (U : List (List Nat)) (M : List Nat) (h : srcRecord src off p ∈ U) :
    dedupStep src off (U, M) p = (U, M ++ [recIndexOf U (srcRecord src off p)]) := by
  simp [dedupStep, h]

/-- When the record of the point is new, the loop step appends it to the
seen table and appends the fresh index to the mapping. -/
theorem dedupStep_not_mem (src : PointAttribute) (off p : Nat)
    (U : List (List Nat)) (M : List Nat) (h : srcRecord src off p ∉ U) :
    dedupStep src off (U, M) p = (U ++ [srcRecord src off p], M ++ [U.length]) := by
  simp [dedupStep, h]

/-- The deduplication loop computes the first-occurrence unique table and
maps every point to the position of its record in that table. -/
theorem dedup_fold_eq (src : PointAttribute) (off : Nat) (n : Nat) :
    (List.range n).foldl (dedupStep src off) ([], []) =
      (firstOccs ((List.range n).map (srcRecord src off)),
       (List.range n).map (fun p =>
         recIndexOf (firstOccs ((List.range n).map (srcRecord src off)))
           (srcRecord src off p))) := by
  induction n with
  | zero => rfl
  | succ n ih =>
    have hmapsucc : (List.range (n + 1)).map (srcRecord src off) =
        (List.range n).map (srcRecord src off) ++ [srcRecord src off n] := by
      rw [List.range_succ, List.map_append]
      rfl
    have hU : firstOccs ((List.range (n + 1)).map (srcRecord src off)) =
        insOcc (firstOccs ((List.range n).map (srcRecord src off)))
          (srcRecord src off n) := by
      rw [hmapsucc, firstOccs_append_singleton]
    have hfold : (List.range (n + 1)).foldl (dedupStep src off) ([], []) =
        dedupStep src off ((List.range n).foldl (dedupStep src off) ([], [])) n := by
      rw [List.range_succ, List.foldl_append, List.foldl_cons, List.foldl_nil]
    rw [hfold, ih]
    by_cases hr : srcRecord src off n ∈
        firstOccs ((List.range n).map (srcRecord src off))
    · have hU2 : firstOccs ((List.range (n + 1)).map (srcRecord src off)) =
          firstOccs ((List.range n).map (srcRecord src off)) := by
        rw [hU]
        unfold insOcc
        simp [hr]
      rw [dedupStep_mem src off n _ _ hr, hU2, List.range_succ, List.map_append]
      rfl
    · have hU2 : firstOccs ((List.range (n + 1)).map (srcRecord src off)) =
          firstOccs ((List.range n).map (srcRecord src off)) ++
            [srcRecord src off n] := by
        rw [hU]
        unfold insOcc
        simp [hr]
      have hlast : recIndexOf
          (firstOccs ((List.range n).map (srcRecord src off)) ++
            [srcRecord src off n])
          (srcRecord src off n) =
          (firstOccs ((List.range n).map (srcRecord src off))).length :=
        recIndexOf_self_append _ _ hr
      have hcong : (List.range n).map (fun p =>
            recIndexOf
              (firstOccs ((List.range n).map (srcRecord src off)) ++
                [srcRecord src off n])
              (srcRecord src off p)) =
          (List.range n).map (fun p =>
            recIndexOf (firstOccs ((List.range n).map (srcRecord src off)))
              (srcRecord src off p)) := by
        apply List.map_congr_left
        intro p hp
        have hmem : srcRecord src off p ∈
            firstOccs ((List.range n).map (srcRecord src off)) := by
          rw [mem_firstOccs]
          exact List.mem_map_of_mem _ hp
        exact recIndexOf_append _ _ _ hmem
      rw [dedupStep_not_mem src off n _ _ hr, hU2, List.range_succ,
        List.map_append, hcong]
      simp only [List.map_cons, List.map_nil, hlast]

/-- C1: when deduplication succeeds (the type/count check passes), the
destination holds exactly as many unique entries as there are distinct
source records, the return value reports that count, unique indices are
assigned in first-occurrence order (each point maps to the position of
its record in the first-occurrence list of distinct records, whose
concatenation is the compacted buffer), and two points get equal mapped
indices exactly when their source records are byte-equal. -/
theorem dedup_correct (dst src : PointAttribute) (off : Nat)
    (h : dedupOk dst src = true) :
    (DeduplicateValues dst src off).2 =
      ((firstOccs ((List.range (numPoints src)).map (srcRecord src off))).length : Int) ∧
    (DeduplicateValues dst src off).1.num_unique_entries =
      ((List.range (numPoints src)).map (srcRecord src off)).toFinset.card ∧
    (DeduplicateValues dst src off).1.indices_map =
      (List.range (numPoints src)).map (fun p =>
        recIndexOf (firstOccs ((List.range (numPoints src)).map (srcRecord src off)))
          (srcRecord src off p)) ∧
    (DeduplicateValues dst src off).1.attribute_buffer =
      some (firstOccs ((List.range (numPoints src)).map (srcRecord src off))).flatten ∧
    (DeduplicateValues dst src off).1.identity_mapping = false ∧
    (∀ p, p < numPoints src → ∀ q, q < numPoints src →
      (srcRecord src off p = srcRecord src off q ↔
        (DeduplicateValues dst src off).1.indices_map.getD p 0 =
          (DeduplicateValues dst src off).1.indices_map.getD q 0)) := by
  have hD : DeduplicateValues dst src off =
      ({ dst with
          attribute_buffer :=
            some (firstOccs ((List.range (numPoints src)).map (srcRecord src off))).flatten
          indices_map :=
            (List.range (numPoints src)).map (fun p =>
              recIndexOf
                (firstOccs ((List.range (numPoints src)).map (srcRecord src off)))
                (srcRecord src off p))
          identity_mapping := false
          num_unique_entries :=
            (firstOccs ((List.range (numPoints src)).map (srcRecord src off))).length },
        ((firstOccs ((List.range (numPoints src)).map (srcRecord src off))).length : Int)) := by
    simp only [DeduplicateValues, h, if_true, dedup_fold_eq]
  rw [hD]
  refine ⟨rfl, firstOccs_length _, rfl, rfl, rfl, fun p hp q hq => ?_⟩
  rw [getD_map_range _ _ _ hp, getD_map_range _ _ _ hq]
  constructor
  · intro hpq
    rw [hpq]
  · intro hidx
    have hmp : srcRecord src off p ∈
        firstOccs ((List.range (numPoints src)).map (srcRecord src off)) := by
      rw [mem_firstOccs]
      exact List.mem_map_of_mem _ (List.mem_range.mpr hp)
    have hmq : srcRecord src off q ∈
        firstOccs ((List.range (numPoints src)).map (srcRecord src off)) := by
      rw [mem_firstOccs]
      exact List.mem_map_of_mem _ (List.mem_range.mpr hq)
    exact recIndexOf_inj _ _ _ hmp hmq hidx

/-- Witness for dedup_correct at the concrete scenario of the spec: a
component_count 3 attribute with five points whose values are (1,1,1),
(2,2,2), (1,1,1), (3,3,3), (2,2,2) deduplicates to 3 unique entries,
mapping [0, 1, 0, 2, 1], with the buffer holding (1,1,1), (2,2,2),
(3,3,3) in first-occurrence order. -/
theorem dedup_correct_witness :
    dedupOk exScenario exScenario = true ∧
    (DeduplicateValues exScenario exScenario 0).2 = 3 ∧
    (DeduplicateValues exScenario exScenario 0).1.num_unique_entries = 3 ∧
    (DeduplicateValues exScenario exScenario 0).1.indices_map = [0, 1, 0, 2, 1] ∧
    (DeduplicateValues exScenario exScenario 0).1.attribute_buffer =
      some [1, 1, 1, 2, 2, 2, 3, 3, 3] := by
  have h := dedup_correct exScenario exScenario 0 (by decide)
  refine ⟨by decide, h.1.trans (by decide), (h.2.1).trans (by decide),
    (h.2.2.1).trans (by decide), (h.2.2.2.1).trans (by decide)⟩

end Draco
